import Mathlib

/-!
Shallow embedding of the chatbot-app repository's canonical chat endpoint
(`src/app/api/chat/route.ts`, rate-limited variant) and the chat UI's
response handling (`src/app/page.tsx`), together with theorems settling
the frozen claims about them.

Strings are modelled as `List Char`; JavaScript `Date.now()` timestamps
(milliseconds) are modelled as `Nat`.
-/

namespace Chatbot

/-- Message roles accepted by the endpoint (`type ChatMessage`). -/
inductive Role where
  | user
  | assistant
deriving DecidableEq, Repr

/-- Roles of the external provider's `contents` entries (`'user' | 'model'`). -/
inductive ProviderRole where
  | user
  | model
deriving DecidableEq, Repr

/-- An incoming message as supplied by the client: the `content` field may be
missing or null, modelled by `Option`. -/
structure RawMessage where
  role : Role
  content : Option (List Char)
deriving DecidableEq, Repr

/-- A message after clamping: content is a definite string. -/
structure Msg where
  role : Role
  content : List Char
deriving DecidableEq, Repr

/-- JavaScript `String.prototype.trim()`: strip leading and trailing
whitespace. -/
def jsTrim (s : List Char) : List Char :=
  ((s.dropWhile Char.isWhitespace).reverse.dropWhile Char.isWhitespace).reverse

/-- The coercion `(m.content ?? "").toString()` in `clampMessages`. -/
def coerceContent (c : Option (List Char)) : List Char := c.getD []

/-- The truncation `.slice(0, MAX_CHARS_PER_MSG)` with `MAX_CHARS_PER_MSG = 4000`. -/
def truncContent (c : List Char) : List Char := c.take 4000

/-- The slice `messages.slice(-MAX_MESSAGES)` with `MAX_MESSAGES = 20`:
the last 20 elements (the whole list when it is shorter). -/
def lastTwenty (l : List RawMessage) : List RawMessage := l.drop (l.length - 20)

/-- The per-message map in `clampMessages`: keep the role, coerce and
truncate the content. -/
def clampMap (m : RawMessage) : Msg :=
  ⟨m.role, truncContent (coerceContent m.content)⟩

/-- `clampMessages` from `route.ts`: keep the last 20 messages, truncate each
content to 4000 characters, drop messages whose trimmed content is empty. -/
def clampMessages (messages : List RawMessage) : List Msg :=
  ((lastTwenty messages).map clampMap).filter
    (fun m => 0 < (jsTrim m.content).length)

/-- One entry of the in-memory rate-limit map `hits`. -/
structure RLEntry where
  count : Nat
  resetAt : Nat
deriving DecidableEq, Repr

/-- The result object of `rateLimit`: `{ ok }` or `{ ok: false, retryAfterMs }`. -/
structure RLResult where
  ok : Bool
  retryAfterMs : Option Nat
deriving DecidableEq, Repr

/-- The rate-limit map `hits`, keyed by client key. -/
abbrev RLStore := String → Option RLEntry

/-- The initial (empty) `hits` map. -/
def emptyStore : RLStore := fun _ => none

/-- `hits.set(key, e)`. -/
def setEntry (s : RLStore) (k : String) (e : RLEntry) : RLStore :=
  fun q => if q = k then some e else s q

/-- `rateLimit(key, limit, windowMs)` from `route.ts`, with the call time
`now` (`Date.now()`) made explicit and the mutated map returned. -/
def rateLimit (hits : RLStore) (key : String) (limit windowMs now : Nat) :
    RLStore × RLResult :=
  match hits key with
  | none => (setEntry hits key ⟨1, now + windowMs⟩, ⟨true, none⟩)
  | some cur =>
    if cur.resetAt < now then
      (setEntry hits key ⟨1, now + windowMs⟩, ⟨true, none⟩)
    else if limit ≤ cur.count then
      (hits, ⟨false, some (cur.resetAt - now)⟩)
    else
      (setEntry hits key ⟨cur.count + 1, cur.resetAt⟩, ⟨true, none⟩)

/-- The parsed request body's `messages` field: missing, present but not an
array, or an array of messages. -/
inductive MessagesField where
  | missing
  | notArray
  | array (msgs : List RawMessage)
deriving DecidableEq

/-- An HTTP response produced by the endpoint, restricted to the fields the
route sets: status, the `error` body string, the `text` body, and the
`retry-after` header (in whole seconds). -/
structure HttpResponse where
  status : Nat
  errorMsg : Option String
  text : Option (List Char)
  retryAfter : Option Nat
deriving DecidableEq, Repr

/-- `Math.ceil(ms / 1000)` on a natural number of milliseconds. -/
def ceilSeconds (ms : Nat) : Nat := (ms + 999) / 1000

/-- `POST` from `route.ts` (canonical rate-limited variant): rate-limit by
client key, validate the `messages` field, clamp, and forward. The outcome of
the forwarded provider call is an input (`Except` carrying the exception
message on failure, and the optional `response.text` on success). -/
def POST (hits : RLStore) (ip : String) (now : Nat) (field : MessagesField)
    (upstream : Except String (Option (List Char))) : RLStore × HttpResponse :=
  let rl := rateLimit hits ip 30 60000 now
  if rl.2.ok then
    match field with
    | .missing => (rl.1, ⟨400, some "Missing messages[]", none, none⟩)
    | .notArray => (rl.1, ⟨400, some "Missing messages[]", none, none⟩)
    | .array msgs =>
      let messages := clampMessages msgs
      if messages.length = 0 then
        (rl.1, ⟨400, some "No usable messages", none, none⟩)
      else
        match upstream with
        | .error _ => (rl.1, ⟨500, some "Server error", none, none⟩)
        | .ok t => (rl.1, ⟨200, none, some (t.getD []), none⟩)
  else
    (rl.1, ⟨429, some "Rate limit exceeded", none,
      some (ceilSeconds (rl.2.retryAfterMs.getD 0))⟩)

/-- One part of a provider `contents` entry. -/
structure GenPart where
  text : List Char
deriving DecidableEq, Repr

/-- One provider `contents` entry: role plus parts. -/
structure GenContent where
  role : ProviderRole
  parts : List GenPart
deriving DecidableEq, Repr

/-- The request handed to `ai.models.generateContent` in `route.ts`. -/
structure GenRequest where
  model : String
  contents : List GenContent
  maxOutputTokens : Nat
  temperature : ℚ
  systemInstruction : String
deriving DecidableEq

/-- Construction of the provider request from the clamped messages, as in
`route.ts`: role translation, parts wrapping, and the fixed configuration. -/
def buildRequest (messages : List Msg) : GenRequest :=
  { model := "gemini-3-flash-preview"
    contents := messages.map (fun m =>
      ⟨if m.role = Role.assistant then ProviderRole.model else ProviderRole.user,
       [⟨m.content⟩]⟩)
    maxOutputTokens := 512
    temperature := 7 / 10
    systemInstruction := "You are a helpful assistant. Be concise and accurate." }

/-- The role translation as the spec words it: `assistant` becomes the
provider role `model`, `user` stays `user`. -/
def specProviderRole : Role → ProviderRole
  | .assistant => .model
  | .user => .user

/-- The UI's placeholder for an empty model reply. -/
def placeholderText : List Char := "(no response)".toList

/-- The UI's assistant-message content on a 2xx response
(`textResponse.trim() || "(no response)"` in `page.tsx`). -/
def assistantReply (t : List Char) : List Char :=
  if jsTrim t = [] then placeholderText else jsTrim t

/-- The UI's success path in `send` (`page.tsx`): append one assistant
message built from the returned text. -/
def onSuccess (prev : List Msg) (t : List Char) : List Msg :=
  prev ++ [⟨Role.assistant, assistantReply t⟩]

/-- Run `rateLimit` once per time in `ts` for a fixed key, threading the map,
collecting the results in order. -/
def runCalls (hits : RLStore) (key : String) (limit windowMs : Nat) :
    List Nat → RLStore × List RLResult
  | [] => (hits, [])
  | t :: ts =>
    let st := rateLimit hits key limit windowMs t
    let rest := runCalls st.1 key limit windowMs ts
    (rest.1, st.2 :: rest.2)

/-- Run a sequence of `rateLimit` calls (key, time) with the route's limit 30
and window 60000 ms, starting from the empty map. -/
def runAll (calls : List (String × Nat)) : RLStore :=
  calls.foldl (fun s c => (rateLimit s c.1 30 60000 c.2).1) emptyStore

/-- Invariant of the rate-limit map: no stored count exceeds 30. -/
def countInv (s : RLStore) : Prop := ∀ k e, s k = some e → e.count ≤ 30

/-- The condition under which the route's validation rejects with 400:
`messages` missing or not an array, or nothing usable left after clamping. -/
def badRequestField : MessagesField → Prop
  | .missing => True
  | .notArray => True
  | .array msgs => clampMessages msgs = []

/-- A concrete rate-limit map whose entry for key "k" is exhausted
(count at the cap 30, window resetting at time 5). -/
def cappedStore : RLStore := fun q => if q = "k" then some ⟨30, 5⟩ else none

/-- Unfolding `rateLimit` when the key has no entry. -/
theorem rateLimit_eq_none (s : RLStore) (k : String) (limit windowMs now : Nat)
    (h : s k = none) :
    rateLimit s k limit windowMs now =
      (setEntry s k ⟨1, now + windowMs⟩, ⟨true, none⟩) := by
  unfold rateLimit
  rw [h]

/-- Unfolding `rateLimit` when the key has an entry. -/
theorem rateLimit_eq_some (s : RLStore) (k : String) (limit windowMs now : Nat)
    (cur : RLEntry) (h : s k = some cur) :
    rateLimit s k limit windowMs now =
      if cur.resetAt < now then
        (setEntry s k ⟨1, now + windowMs⟩, ⟨true, none⟩)
      else if limit ≤ cur.count then
        (s, ⟨false, some (cur.resetAt - now)⟩)
      else
        (setEntry s k ⟨cur.count + 1, cur.resetAt⟩, ⟨true, none⟩) := by
  unfold rateLimit
  rw [h]

/-- Trimming a string made of whitespace only yields the empty string. -/
theorem jsTrim_eq_nil (l : List Char) (h : ∀ c ∈ l, Char.isWhitespace c) :
    jsTrim l = [] := by
  have h1 : l.dropWhile Char.isWhitespace = [] :=
    List.dropWhile_eq_nil_iff.mpr h
  simp [jsTrim, h1]

/-- If every supplied message's (coerced) content is whitespace only, clamping
leaves no usable message. -/
theorem clampMessages_eq_nil_of_ws (msgs : List RawMessage)
    (h : ∀ m ∈ msgs, ∀ c ∈ coerceContent m.content, Char.isWhitespace c) :
    clampMessages msgs = [] := by
  unfold clampMessages
  rw [List.filter_eq_nil_iff]
  intro x hx
  obtain ⟨m, hm, rfl⟩ := List.mem_map.mp hx
  have hmem : m ∈ msgs := by
    have := List.drop_subset (msgs.length - 20) msgs
    exact this (by simpa [lastTwenty] using hm)
  have hws : ∀ c ∈ truncContent (coerceContent m.content), Char.isWhitespace c :=
    fun c hc => h m hmem c (List.take_subset _ _ hc)
  have hnil : jsTrim (truncContent (coerceContent m.content)) = [] :=
    jsTrim_eq_nil _ hws
  simp [clampMap, hnil]

/-- C3: for a conversation of more than 20 messages, the slice step of
`clampMessages` keeps exactly the last 20 supplied messages, in order
(a length-20 suffix of the input, the prefix of older messages discarded). -/
theorem lastTwenty_keeps_last_twenty (msgs : List RawMessage)
    (h : 20 < msgs.length) :
    (lastTwenty msgs).length = 20 ∧ lastTwenty msgs <:+ msgs ∧
    msgs.take (msgs.length - 20) ++ lastTwenty msgs = msgs ∧
    clampMessages msgs =
      ((lastTwenty msgs).map clampMap).filter
        (fun m => 0 < (jsTrim m.content).length) := by
  refine ⟨?_, List.drop_suffix _ _, List.take_append_drop _ _, rfl⟩
  simp only [lastTwenty, List.length_drop]
  omega

/-- Witness for C3 at a concrete 21-message conversation. -/
theorem lastTwenty_keeps_last_twenty_witness :
    20 < (List.replicate 21 (⟨Role.user, none⟩ : RawMessage)).length ∧
    ((lastTwenty (List.replicate 21 ⟨Role.user, none⟩)).length = 20 ∧
     lastTwenty (List.replicate 21 ⟨Role.user, none⟩) <:+
       List.replicate 21 ⟨Role.user, none⟩ ∧
     (List.replicate 21 (⟨Role.user, none⟩ : RawMessage)).take
         ((List.replicate 21 (⟨Role.user, none⟩ : RawMessage)).length - 20) ++
         lastTwenty (List.replicate 21 ⟨Role.user, none⟩) =
       List.replicate 21 ⟨Role.user, none⟩ ∧
     clampMessages (List.replicate 21 ⟨Role.user, none⟩) =
       ((lastTwenty (List.replicate 21 ⟨Role.user, none⟩)).map clampMap).filter
         (fun m => 0 < (jsTrim m.content).length)) :=
  ⟨by simp, lastTwenty_keeps_last_twenty _ (by simp)⟩

/-- C4: truncation keeps content of length at most 4000 unchanged, and cuts
longer content to its first 4000 characters (a length-4000 prefix). -/
theorem truncContent_spec (c : List Char) :
    (4000 < c.length →
      (truncContent c).length = 4000 ∧ truncContent c <+: c) ∧
    (c.length ≤ 4000 → truncContent c = c) := by
  constructor
  · intro h
    refine ⟨?_, List.take_prefix _ _⟩
    simp only [truncContent, List.length_take]
    omega
  · intro h
    simp [truncContent, List.take_of_length_le h]

/-- Witness for C4 at a 4001-character content and a 2-character content. -/
theorem truncContent_spec_witness :
    (4000 < (List.replicate 4001 'a').length ∧
      ((truncContent (List.replicate 4001 'a')).length = 4000 ∧
       truncContent (List.replicate 4001 'a') <+: List.replicate 4001 'a')) ∧
    (("hi".toList).length ≤ 4000 ∧ truncContent "hi".toList = "hi".toList) :=
  ⟨⟨by rw [List.length_replicate]; omega,
    (truncContent_spec _).1 (by rw [List.length_replicate]; omega)⟩,
   ⟨by decide, (truncContent_spec _).2 (by decide)⟩⟩

/-- C10: `clampMessages` is total on messages with absent content: such
content is coerced to the empty string by the mapping step, and no message
with whitespace-only (in particular empty) content survives the filter. -/
theorem clampMessages_total_none (msgs : List RawMessage) :
    (∀ m : RawMessage, m.content = none → (clampMap m).content = []) ∧
    (∀ m ∈ clampMessages msgs, jsTrim m.content ≠ []) := by
  constructor
  · intro m hm
    simp [clampMap, coerceContent, truncContent, hm]
  · intro m hm hnil
    have hp := (List.mem_filter.mp hm).2
    simp [hnil] at hp

/-- Witness for C10: a content-less message maps to empty content; a concrete
surviving message has nonempty trimmed content. -/
theorem clampMessages_total_none_witness :
    ((⟨Role.user, none⟩ : RawMessage).content = none ∧
      (clampMap ⟨Role.user, none⟩).content = []) ∧
    ((⟨Role.user, "hi".toList⟩ : Msg) ∈
        clampMessages [⟨Role.user, some "hi".toList⟩] ∧
      jsTrim (Msg.content ⟨Role.user, "hi".toList⟩) ≠ []) :=
  ⟨⟨rfl, (clampMessages_total_none []).1 _ rfl⟩,
   ⟨by decide,
    (clampMessages_total_none [⟨Role.user, some "hi".toList⟩]).2 _ (by decide)⟩⟩

/-- C6: once a key's window has expired (`resetAt` strictly passed), the next
`rateLimit` call for that key succeeds even if the count was at the cap, and
replaces the entry with a fresh one (count 1, new reset time). -/
theorem rateLimit_window_reset (s : RLStore) (k : String) (R now : Nat)
    (hentry : s k = some ⟨30, R⟩) (hpast : R < now) :
    (rateLimit s k 30 60000 now).2.ok = true ∧
    (rateLimit s k 30 60000 now).1 k = some ⟨1, now + 60000⟩ := by
  unfold rateLimit
  rw [hentry]
  simp [hpast, setEntry]

/-- Witness for C6 at the concrete exhausted map `cappedStore`. -/
theorem rateLimit_window_reset_witness :
    cappedStore "k" = some ⟨30, 5⟩ ∧ 5 < 6 ∧
    ((rateLimit cappedStore "k" 30 60000 6).2.ok = true ∧
     (rateLimit cappedStore "k" 30 60000 6).1 "k" = some ⟨1, 6 + 60000⟩) :=
  ⟨rfl, by omega, rateLimit_window_reset cappedStore "k" 5 6 rfl (by omega)⟩

/-- One `rateLimit` call with limit 30 preserves the count bound. -/
theorem rateLimit_preserves_countInv (s : RLStore) (k : String) (now : Nat)
    (h : countInv s) : countInv (rateLimit s k 30 60000 now).1 := by
  intro q e hq
  cases hs : s k with
  | none =>
    rw [rateLimit_eq_none s k 30 60000 now hs] at hq
    by_cases hqk : q = k
    · subst hqk
      simp [setEntry] at hq
      subst hq
      show (1 : Nat) ≤ 30
      omega
    · simp only [setEntry, if_neg hqk] at hq
      exact h q e hq
  | some cur =>
    rw [rateLimit_eq_some s k 30 60000 now cur hs] at hq
    by_cases h1 : cur.resetAt < now
    · rw [if_pos h1] at hq
      by_cases hqk : q = k
      · subst hqk
        simp [setEntry] at hq
        subst hq
        show (1 : Nat) ≤ 30
        omega
      · simp only [setEntry, if_neg hqk] at hq
        exact h q e hq
    · rw [if_neg h1] at hq
      by_cases h2 : 30 ≤ cur.count
      · rw [if_pos h2] at hq
        exact h q e hq
      · rw [if_neg h2] at hq
        by_cases hqk : q = k
        · subst hqk
          simp [setEntry] at hq
          subst hq
          show cur.count + 1 ≤ 30
          omega
        · simp only [setEntry, if_neg hqk] at hq
          exact h q e hq

/-- Folding `rateLimit` calls preserves the count bound. -/
theorem foldl_rateLimit_countInv (calls : List (String × Nat)) :
    ∀ s : RLStore, countInv s →
      countInv (calls.foldl (fun s c => (rateLimit s c.1 30 60000 c.2).1) s) := by
  induction calls with
  | nil => intro s h; simpa using h
  | cons c cs ih =>
    intro s h
    exact ih _ (rateLimit_preserves_countInv s c.1 c.2 h)

/-- C9: after any sequence of `rateLimit` calls with limit 30, no stored
count exceeds 30; a call finding the count at the limit rejects and leaves
the map unchanged; a call that starts a new window stores count 1. -/
theorem rateLimit_count_invariant :
    (∀ (calls : List (String × Nat)) (k : String) (e : RLEntry),
      runAll calls k = some e → e.count ≤ 30) ∧
    (∀ (s : RLStore) (k : String) (now c R : Nat),
      s k = some ⟨c, R⟩ → now ≤ R → 30 ≤ c →
      rateLimit s k 30 60000 now = (s, ⟨false, some (R - now)⟩)) ∧
    (∀ (s : RLStore) (k : String) (now : Nat) (cur : RLEntry),
      s k = some cur → cur.resetAt < now →
      (rateLimit s k 30 60000 now).1 k = some ⟨1, now + 60000⟩) := by
  refine ⟨?_, ?_, ?_⟩
  · intro calls k e he
    have hinv : countInv (runAll calls) :=
      foldl_rateLimit_countInv calls emptyStore (by intro q x hx; cases hx)
    exact hinv k e he
  · intro s k now c R hentry hle hcap
    rw [rateLimit_eq_some s k 30 60000 now ⟨c, R⟩ hentry,
      if_neg (show ¬((⟨c, R⟩ : RLEntry).resetAt < now) from by
        show ¬(R < now); omega),
      if_pos (show (30 : Nat) ≤ (⟨c, R⟩ : RLEntry).count from hcap)]
  · intro s k now cur hentry hpast
    rw [rateLimit_eq_some s k 30 60000 now cur hentry, if_pos hpast]
    simp [setEntry]

/-- Witness for C9: a one-call sequence yields a stored count within the
bound; the rejection and window-reset behaviors at concrete inputs. -/
theorem rateLimit_count_invariant_witness :
    (runAll [("k", 0)] "k" = some ⟨1, 60000⟩ ∧
      (⟨1, 60000⟩ : RLEntry).count ≤ 30) ∧
    (cappedStore "k" = some ⟨30, 5⟩ ∧ (3:Nat) ≤ 5 ∧ (30:Nat) ≤ 30 ∧
      rateLimit cappedStore "k" 30 60000 3 =
        (cappedStore, ⟨false, some (5 - 3)⟩)) ∧
    (cappedStore "k" = some ⟨30, 5⟩ ∧ (⟨30, 5⟩ : RLEntry).resetAt < 7 ∧
      (rateLimit cappedStore "k" 30 60000 7).1 "k" = some ⟨1, 7 + 60000⟩) :=
  ⟨⟨rfl, rateLimit_count_invariant.1 [("k", 0)] "k" ⟨1, 60000⟩ rfl⟩,
   ⟨rfl, by omega, by omega,
    rateLimit_count_invariant.2.1 cappedStore "k" 3 30 5 rfl (by omega) (by omega)⟩,
   ⟨rfl, by decide,
    rateLimit_count_invariant.2.2 cappedStore "k" 7 ⟨30, 5⟩ rfl (by decide)⟩⟩

/-- C2: whenever a request that passed the rate limiter and validation
reaches the forwarding step and the provider call fails — whatever the
exception message — the endpoint answers 500 with the fixed generic body
"Server error", independent of the exception text. -/
theorem post_forward_failure_generic (hits : RLStore) (ip : String) (now : Nat)
    (msgs : List RawMessage) (e : String)
    (hok : (rateLimit hits ip 30 60000 now).2.ok = true)
    (hmsgs : clampMessages msgs ≠ []) :
    (POST hits ip now (.array msgs) (.error e)).2 =
      ⟨500, some "Server error", none, none⟩ := by
  have hlen : (clampMessages msgs).length ≠ 0 := by
    simpa [List.length_eq_zero] using hmsgs
  simp [POST, hok, hlen]

/-- Witness for C2 at a concrete fresh map, one usable message, and the
exception message "boom". -/
theorem post_forward_failure_generic_witness :
    (rateLimit emptyStore "k" 30 60000 0).2.ok = true ∧
    clampMessages [⟨Role.user, some "hi".toList⟩] ≠ [] ∧
    (POST emptyStore "k" 0 (.array [⟨Role.user, some "hi".toList⟩])
        (.error "boom")).2 = ⟨500, some "Server error", none, none⟩ :=
  ⟨rfl, by decide,
   post_forward_failure_generic emptyStore "k" 0 _ "boom" rfl (by decide)⟩

/-- C5: for a request that passes the rate limiter, the endpoint answers 400
exactly when `messages` is missing or not an array, or clamping leaves no
usable message; a conversation whose every content is whitespace only (or
absent) clamps to nothing and hence yields 400. -/
theorem post_400_iff (hits : RLStore) (ip : String) (now : Nat)
    (field : MessagesField) (upstream : Except String (Option (List Char))) :
    ((rateLimit hits ip 30 60000 now).2.ok = true →
      ((POST hits ip now field upstream).2.status = 400 ↔
        badRequestField field)) ∧
    ((POST hits ip now field upstream).2.status = 400 →
      badRequestField field) ∧
    (∀ msgs : List RawMessage,
      (∀ m ∈ msgs, ∀ c ∈ coerceContent m.content, Char.isWhitespace c) →
      clampMessages msgs = []) := by
  have hiff : (rateLimit hits ip 30 60000 now).2.ok = true →
      ((POST hits ip now field upstream).2.status = 400 ↔
        badRequestField field) := by
    intro hok
    cases field with
    | missing => simp [POST, hok, badRequestField]
    | notArray => simp [POST, hok, badRequestField]
    | array msgs =>
      by_cases hlen : (clampMessages msgs).length = 0
      · simp [POST, hok, hlen, badRequestField, ← List.length_eq_zero]
      · cases upstream with
        | error e =>
          simp [POST, hok, hlen, badRequestField, ← List.length_eq_zero]
        | ok t =>
          simp [POST, hok, hlen, badRequestField, ← List.length_eq_zero]
  refine ⟨hiff, ?_, fun msgs h => clampMessages_eq_nil_of_ws msgs h⟩
  intro h400
  by_cases hok : (rateLimit hits ip 30 60000 now).2.ok = true
  · exact (hiff hok).mp h400
  · have hko : (rateLimit hits ip 30 60000 now).2.ok = false := by
      revert hok
      cases (rateLimit hits ip 30 60000 now).2.ok <;> simp
    simp [POST, hko] at h400

/-- Witness for C5: a whitespace-only one-message conversation passes the
rate limiter and is answered 400; a missing `messages` field yields 400. -/
theorem post_400_iff_witness :
    ((rateLimit emptyStore "k" 30 60000 0).2.ok = true ∧
      ((POST emptyStore "k" 0 (.array [⟨Role.user, some " ".toList⟩])
          (.ok none)).2.status = 400 ↔
        badRequestField (.array [⟨Role.user, some " ".toList⟩]))) ∧
    ((POST emptyStore "k" 0 .missing (.ok none)).2.status = 400 ∧
      badRequestField .missing) ∧
    ((∀ m ∈ [(⟨Role.user, some " ".toList⟩ : RawMessage)],
        ∀ c ∈ coerceContent m.content, Char.isWhitespace c) ∧
      clampMessages [⟨Role.user, some " ".toList⟩] = []) :=
  ⟨⟨rfl,
    (post_400_iff emptyStore "k" 0 (.array [⟨Role.user, some " ".toList⟩])
       (.ok none)).1 rfl⟩,
   ⟨by decide,
    (post_400_iff emptyStore "k" 0 .missing (.ok none)).2.1 (by decide)⟩,
   ⟨by decide,
    (post_400_iff emptyStore "k" 0 .missing (.ok none)).2.2 _ (by decide)⟩⟩

/-- A run of in-window `rateLimit` calls on a key whose entry has room for
all of them: every call succeeds and the count advances by one per call,
keeping the reset time. -/
theorem runCalls_all_ok (key : String) (limit windowMs : Nat) (ts : List Nat) :
    ∀ (s : RLStore) (c R : Nat),
      s key = some ⟨c, R⟩ → c + ts.length ≤ limit → (∀ t ∈ ts, t ≤ R) →
      (runCalls s key limit windowMs ts).1 key = some ⟨c + ts.length, R⟩ ∧
      (runCalls s key limit windowMs ts).2 =
        List.replicate ts.length ⟨true, none⟩ := by
  induction ts with
  | nil =>
    intro s c R hs _ _
    simpa [runCalls] using hs
  | cons t ts ih =>
    intro s c R hs hc hts
    have hnotlt : ¬((⟨c, R⟩ : RLEntry).resetAt < t) := by
      show ¬(R < t)
      have := hts t (List.mem_cons_self t ts)
      omega
    have hnotcap : ¬(limit ≤ (⟨c, R⟩ : RLEntry).count) := by
      show ¬(limit ≤ c)
      simp only [List.length_cons] at hc
      omega
    have hstep : rateLimit s key limit windowMs t =
        (setEntry s key ⟨c + 1, R⟩, ⟨true, none⟩) := by
      rw [rateLimit_eq_some s key limit windowMs t ⟨c, R⟩ hs, if_neg hnotlt,
        if_neg hnotcap]
    have hnext := ih (setEntry s key ⟨c + 1, R⟩) (c + 1) R
      (by simp [setEntry])
      (by simp only [List.length_cons] at hc; omega)
      (fun x hx => hts x (List.mem_cons_of_mem t hx))
    have harith : c + 1 + ts.length = c + (t :: ts).length := by
      simp only [List.length_cons]
      omega
    refine ⟨?_, ?_⟩
    · simp only [runCalls, hstep]
      rw [← harith]
      exact hnext.1
    · simp only [runCalls, hstep, List.length_cons, List.replicate_succ]
      simp [hnext.2]

/-- C1: starting from a map with no entry for the key, 31 calls inside one
60-second window (measured from the first call): the first 30 pass the rate
limiter, and the 31st request is answered 429 with a `retry-after` header
equal to the seconds until window reset rounded up, a positive integer. -/
theorem rateLimit_thirty_then_429 (hits0 : RLStore) (key : String)
    (t0 tLast : Nat) (mid : List Nat) (field : MessagesField)
    (upstream : Except String (Option (List Char)))
    (hfresh : hits0 key = none)
    (hlen : mid.length = 29)
    (hmid : ∀ t ∈ mid, t0 ≤ t ∧ t < t0 + 60000)
    (hlast1 : t0 ≤ tLast) (hlast2 : tLast < t0 + 60000) :
    (runCalls hits0 key 30 60000 (t0 :: mid)).2 =
      List.replicate 30 ⟨true, none⟩ ∧
    (runCalls hits0 key 30 60000 (t0 :: mid)).1 key = some ⟨30, t0 + 60000⟩ ∧
    (POST (runCalls hits0 key 30 60000 (t0 :: mid)).1 key tLast field
        upstream).2.status = 429 ∧
    (POST (runCalls hits0 key 30 60000 (t0 :: mid)).1 key tLast field
        upstream).2.retryAfter = some (ceilSeconds (t0 + 60000 - tLast)) ∧
    0 < ceilSeconds (t0 + 60000 - tLast) := by
  have hstep : rateLimit hits0 key 30 60000 t0 =
      (setEntry hits0 key ⟨1, t0 + 60000⟩, ⟨true, none⟩) :=
    rateLimit_eq_none hits0 key 30 60000 t0 hfresh
  have hrest := runCalls_all_ok key 30 60000 mid
    (setEntry hits0 key ⟨1, t0 + 60000⟩) 1 (t0 + 60000)
    (by simp [setEntry]) (by omega)
    (fun t ht => by have := hmid t ht; omega)
  have h30 : 1 + mid.length = 30 := by omega
  rw [h30] at hrest
  have hS1 : (runCalls hits0 key 30 60000 (t0 :: mid)).1 key =
      some ⟨30, t0 + 60000⟩ := by
    simp only [runCalls, hstep]
    exact hrest.1
  have hres : (runCalls hits0 key 30 60000 (t0 :: mid)).2 =
      List.replicate 30 ⟨true, none⟩ := by
    simp only [runCalls, hstep]
    rw [hrest.2, hlen]
    rfl
  have hrl : rateLimit (runCalls hits0 key 30 60000 (t0 :: mid)).1 key
      30 60000 tLast =
      ((runCalls hits0 key 30 60000 (t0 :: mid)).1,
        ⟨false, some (t0 + 60000 - tLast)⟩) := by
    rw [rateLimit_eq_some _ _ _ _ _ ⟨30, t0 + 60000⟩ hS1,
      if_neg (show ¬((⟨30, t0 + 60000⟩ : RLEntry).resetAt < tLast) from by
        show ¬(t0 + 60000 < tLast); omega),
      if_pos (show (30 : Nat) ≤ (⟨30, t0 + 60000⟩ : RLEntry).count from
        le_refl 30)]
  have hpos : 0 < ceilSeconds (t0 + 60000 - tLast) :=
    Nat.div_pos (by omega) (by norm_num)
  refine ⟨hres, hS1, ?_, ?_, hpos⟩
  · simp [POST, hrl]
  · simp [POST, hrl]

/-- Witness for C1: all 31 calls at time 0 from a fresh map for key "k". -/
theorem rateLimit_thirty_then_429_witness :
    emptyStore "k" = none ∧ (List.replicate 29 0).length = 29 ∧
    (∀ t ∈ List.replicate 29 (0 : Nat), 0 ≤ t ∧ t < 0 + 60000) ∧
    (0 : Nat) ≤ 0 ∧ (0 : Nat) < 0 + 60000 ∧
    ((runCalls emptyStore "k" 30 60000 (0 :: List.replicate 29 0)).2 =
        List.replicate 30 ⟨true, none⟩ ∧
      (runCalls emptyStore "k" 30 60000 (0 :: List.replicate 29 0)).1 "k" =
        some ⟨30, 0 + 60000⟩ ∧
      (POST (runCalls emptyStore "k" 30 60000 (0 :: List.replicate 29 0)).1
          "k" 0 .missing (.ok none)).2.status = 429 ∧
      (POST (runCalls emptyStore "k" 30 60000 (0 :: List.replicate 29 0)).1
          "k" 0 .missing (.ok none)).2.retryAfter =
        some (ceilSeconds (0 + 60000 - 0)) ∧
      0 < ceilSeconds (0 + 60000 - 0)) :=
  ⟨rfl, by decide, by decide, by decide, by decide,
   rateLimit_thirty_then_429 emptyStore "k" 0 0 (List.replicate 29 0)
     .missing (.ok none) rfl (by decide) (by decide) (by decide) (by decide)⟩

/-- Counterexample to C7 as stated: the forwarded request's system
instruction is not the string "be a concise, accurate assistant". -/
theorem buildRequest_sysInstr_counterexample :
    (buildRequest [⟨Role.user, "hi".toList⟩]).systemInstruction ≠
      "be a concise, accurate assistant" := by
  decide

/-- C7 (amended): the forwarded request translates role `assistant` to the
provider role `model` and keeps `user` as `user`, wraps each content in one
text part, and carries the fixed system instruction "You are a helpful
assistant. Be concise and accurate.", 512 max output tokens, temperature
0.7, and the fixed model identifier. -/
theorem buildRequest_spec (messages : List Msg) :
    (buildRequest messages).contents =
      messages.map (fun m => ⟨specProviderRole m.role, [⟨m.content⟩]⟩) ∧
    (buildRequest messages).maxOutputTokens = 512 ∧
    (buildRequest messages).temperature = 7 / 10 ∧
    (buildRequest messages).systemInstruction =
      "You are a helpful assistant. Be concise and accurate." ∧
    (buildRequest messages).model = "gemini-3-flash-preview" := by
  refine ⟨?_, rfl, rfl, rfl, rfl⟩
  unfold buildRequest
  apply List.map_congr_left
  intro m _
  cases hr : m.role <;> simp [specProviderRole, hr]

/-- Counterexample to C8 as stated: on returned text " hi" the UI appends
content "hi", not the returned text itself; and on the nonempty
whitespace-only text " " it appends the placeholder. -/
theorem onSuccess_counterexample :
    (onSuccess [] " hi".toList ≠ [] ++ [⟨Role.assistant, " hi".toList⟩]) ∧
    (" ".toList ≠ ([] : List Char) ∧
      onSuccess [] " ".toList = [] ++ [⟨Role.assistant, placeholderText⟩]) := by
  decide

/-- C8 (amended): on a 2xx response the UI appends exactly one assistant
message; its content is the returned text trimmed of leading and trailing
whitespace, or the placeholder "(no response)" when the trimmed text is
empty (empty or whitespace-only returned text). -/
theorem onSuccess_spec (prev : List Msg) (t : List Char) :
    ∃ c, onSuccess prev t = prev ++ [⟨Role.assistant, c⟩] ∧
      (jsTrim t = [] → c = placeholderText) ∧
      (jsTrim t ≠ [] → c = jsTrim t) := by
  refine ⟨assistantReply t, rfl, ?_, ?_⟩ <;> intro h <;> simp [assistantReply, h]

/-- Witness for C8 at the concrete returned text "h". -/
theorem onSuccess_spec_witness :
    ∃ c, onSuccess [] ['h'] = [] ++ [⟨Role.assistant, c⟩] ∧
      (jsTrim ['h'] = [] → c = placeholderText) ∧
      (jsTrim ['h'] ≠ [] → c = jsTrim ['h']) :=
  onSuccess_spec [] ['h']

end Chatbot
